import Mathlib

/-!
Shallow embedding of `pm_resume_agent.py` (PM resume tailoring agent) and
verification of the specified properties of `JobDescriptionAnalyzer` and
`ResumeTailor`.

Modelling conventions:
* Python `str` is Lean `String` (a list of characters); `str.lower`,
  `in` (substring), `str.count`, `str.strip`, `str.join` and `str.replace`
  are modelled character-exactly for the ASCII texts the program works on.
* Python `float` scores are modelled exactly as rationals `ℚ` (the program
  only adds and multiplies decimal constants, so no rounding behaviour is
  load-bearing for any property below).
* Python `dict` is an insertion-ordered association list with
  overwrite-in-place assignment, exactly as CPython guarantees.
* `sorted(xs, key=k, reverse=True)` is a stable descending sort; it is
  modelled by `List.insertionSort` with the relation `k b ≤ k a`, which has
  the same specification (descending by key, ties keep input order).
* The in-place mutation of `Experience.relevance_score` is modelled by
  state passing: `tailor_resume` returns the resume together with the
  profile as it stands after the call.
-/

namespace PMAgent

/-! ### Python string primitives -/

/-- Python `\s` on the ASCII range: space, tab, newline, CR, vertical tab,
form feed. -/
def isPySpace (c : Char) : Bool :=
  c = ' ' || c = '\t' || c = '\n' || c = '\r' || c = '\x0b' || c = '\x0c'

/-- Python `str.lower` (ASCII model): lowercase every character. -/
def pyLower (s : String) : String :=
  ⟨s.data.map Char.toLower⟩

/-- Substring scan on character lists: the needle is a prefix of some
suffix of the haystack. -/
def strInL (needle : List Char) (hay : List Char) : Bool :=
  match hay with
  | [] => needle.isEmpty
  | _ :: rest => needle.isPrefixOf hay || strInL needle rest

/-- Python `needle in hay`: substring containment. -/
def strIn (needle hay : String) : Bool :=
  strInL needle.data hay.data

/-- Auxiliary for `pyCount`: scan left to right, skipping past each match
(non-overlapping count), for a needle known to be nonempty.  The fuel
argument keeps the recursion structural; starting it at the haystack
length it never runs out, since every step consumes at least one
character. -/
def pyCountAux (needle : List Char) : Nat → List Char → Nat
  | 0, _ => 0
  | _ + 1, [] => 0
  | fuel + 1, c :: rest =>
    if needle.isPrefixOf (c :: rest) then
      pyCountAux needle fuel (List.drop (needle.length - 1) rest) + 1
    else
      pyCountAux needle fuel rest

/-- Python `hay.count(needle)`: non-overlapping occurrence count
(`len(hay) + 1` for an empty needle, as in CPython). -/
def pyCount (needle hay : String) : Nat :=
  if needle.data.isEmpty then hay.data.length + 1
  else pyCountAux needle.data hay.data.length hay.data

/-- Python `str.strip()` on a character list. -/
def pyStripL (s : List Char) : List Char :=
  ((s.dropWhile isPySpace).reverse.dropWhile isPySpace).reverse

/-- Python `str.replace('_', ' ')` (single-character replacement). -/
def pyReplaceUnderscore (s : String) : String :=
  ⟨s.data.map (fun c => if c = '_' then ' ' else c)⟩

/-! ### Python dict as an insertion-ordered association list -/

/-- A Python `dict` with keys `α` and values `β`, in insertion order. -/
abbrev Dict (α β : Type) := List (α × β)

/-- Python `k in m`. -/
def dictContains [DecidableEq α] (m : Dict α β) (k : α) : Bool :=
  m.any (fun p => p.1 = k)

/-- Python `m[k]` as an option. -/
def dictGet? [DecidableEq α] (m : Dict α β) (k : α) : Option β :=
  (m.find? (fun p => p.1 = k)).map (·.2)

/-- Python `m.get(k, d)`. -/
def dictGetD [DecidableEq α] (m : Dict α β) (k : α) (d : β) : β :=
  (dictGet? m k).getD d

/-- Python `m[k] = v`: overwrite in place if the key is present, else append. -/
def dictSet [DecidableEq α] (m : Dict α β) (k : α) (v : β) : Dict α β :=
  if dictContains m k then m.map (fun p => if p.1 = k then (k, v) else p)
  else m ++ [(k, v)]

/-! ### Python `sorted(xs, key=k, reverse=True)` -/

/-- Python `sorted(xs, key=key, reverse=True)`: stable descending sort by
key. -/
def pySortDesc (key : α → β) [LinearOrder β] (l : List α) : List α :=
  l.insertionSort (fun a b => key b ≤ key a)

/-! ### The regular expressions of `_extract_requirements`

The four requirement patterns all have the shape
`HEADER:?\s*(.*?)(?=\n\s*[A-Z][^:]*:|\n\s*$)` compiled with
`re.IGNORECASE | re.DOTALL`.  They are matched here by a specialised
backtracking matcher with CPython's priority order: greedy pieces try the
longest consumption first, lazy pieces the shortest, alternatives left to
right.  Note that with `re.IGNORECASE` the class `[A-Z]` also matches
`a`–`z`. -/

/-- `[A-Z]` under `re.IGNORECASE` (ASCII model). -/
def isAZci (c : Char) : Bool :=
  ('A' ≤ c && c ≤ 'Z') || ('a' ≤ c && c ≤ 'z')

/-- `$` without `re.MULTILINE`: end of string, or just before a trailing
newline. -/
def reDollar (s : List Char) : Bool :=
  s = [] || s = ['\n']

/-- A greedy star over a one-character class, backtracking into a Boolean
continuation: longest consumption is tried first. -/
def starB (p : Char → Bool) (k : List Char → Bool) : List Char → Bool
  | [] => k []
  | c :: rest => if p c then (starB p k rest || k (c :: rest)) else k (c :: rest)

/-- Lookahead branch `\s*[A-Z][^:]*:` (after the leading newline). -/
def lookColonHead : List Char → Bool :=
  starB isPySpace (fun s =>
    match s with
    | c :: rest =>
      isAZci c && starB (fun d => d ≠ ':') (fun t =>
        match t with
        | ':' :: _ => true
        | _ => false) rest
    | [] => false)

/-- Lookahead branch `\s*$` (after the leading newline). -/
def lookWSEnd : List Char → Bool :=
  starB isPySpace reDollar

/-- The full lookahead `(?=\n\s*[A-Z][^:]*:|\n\s*$)`. -/
def reqLookahead (s : List Char) : Bool :=
  match s with
  | '\n' :: rest => lookColonHead rest || lookWSEnd rest
  | _ => false

/-- `(.*?)(?=LOOK)` with `re.DOTALL`: the shortest prefix (of any
characters) after which the lookahead holds; returns the captured group
and the rest (the lookahead consumes nothing). -/
def lazyCaptureUntil : List Char → Option (List Char × List Char)
  | [] => if reqLookahead [] then some ([], []) else none
  | c :: rest =>
    if reqLookahead (c :: rest) then some ([], c :: rest)
    else (lazyCaptureUntil rest).map (fun p => (c :: p.1, p.2))

/-- `\s*(.*?)(?=LOOK)`: greedy whitespace with backtracking into the lazy
capture. -/
def wsThenCapture : List Char → Option (List Char × List Char)
  | [] => lazyCaptureUntil []
  | c :: rest =>
    if isPySpace c then
      match wsThenCapture rest with
      | some r => some r
      | none => lazyCaptureUntil (c :: rest)
    else lazyCaptureUntil (c :: rest)

/-- `:?\s*(.*?)(?=LOOK)`: optional colon (greedy) then `wsThenCapture`. -/
def tailAfterHeader (s : List Char) : Option (List Char × List Char) :=
  match s with
  | ':' :: rest =>
    (match wsThenCapture rest with
     | some r => some r
     | none => wsThenCapture s)
  | _ => wsThenCapture s

/-- Case-insensitive literal at the head of the input; returns the rest. -/
def matchLitCI : List Char → List Char → Option (List Char)
  | [], s => some s
  | _ :: _, [] => none
  | c :: cs, d :: ds => if d.toLower = c.toLower then matchLitCI cs ds else none

/-- An optional literal character (greedy: the consuming branch is
preferred), backtracking into a continuation. -/
def optCharThen (c : Char) (k : List Char → Option α) (s : List Char) : Option α :=
  match s with
  | d :: rest =>
    if d.toLower = c.toLower then
      match k rest with
      | some r => some r
      | none => k s
    else k s
  | [] => k s

/-- `.{0,n}` with `re.DOTALL` (greedy, with backtracking): consume up to
`n` arbitrary characters, longest first, then run the continuation. -/
def dotBoundedThen (n : Nat) (k : List Char → Option α) (s : List Char) : Option α :=
  match n, s with
  | 0, _ => k s
  | _ + 1, [] => k []
  | m + 1, c :: rest =>
    match dotBoundedThen m k rest with
    | some r => some r
    | none => k (c :: rest)

/-- Pattern `requirements?:?\s*(.*?)(?=…)` at one position. -/
def matchReqPat1 (s : List Char) : Option (List Char × List Char) :=
  (matchLitCI "requirement".data s).bind (optCharThen 's' tailAfterHeader)

/-- Pattern `qualifications?:?\s*(.*?)(?=…)` at one position. -/
def matchReqPat2 (s : List Char) : Option (List Char × List Char) :=
  (matchLitCI "qualification".data s).bind (optCharThen 's' tailAfterHeader)

/-- Pattern `what you.{0,20}need:?\s*(.*?)(?=…)` at one position. -/
def matchReqPat3 (s : List Char) : Option (List Char × List Char) :=
  (matchLitCI "what you".data s).bind
    (dotBoundedThen 20 (fun r => (matchLitCI "need".data r).bind tailAfterHeader))

/-- Pattern `you should have:?\s*(.*?)(?=…)` at one position. -/
def matchReqPat4 (s : List Char) : Option (List Char × List Char) :=
  (matchLitCI "you should have".data s).bind tailAfterHeader

/-- `re.finditer`: scan left to right, at each position try the pattern;
on a match emit the captured group and resume after the match.  Every
match consumes at least the header, so the fuel `length + 1` is never
exhausted. -/
def reFinditer (matchAt : List Char → Option (List Char × List Char)) :
    Nat → List Char → List (List Char)
  | 0, _ => []
  | _ + 1, [] => []
  | fuel + 1, c :: rest =>
    match matchAt (c :: rest) with
    | some (g, r) => g :: reFinditer matchAt fuel r
    | none => reFinditer matchAt fuel rest

/-! ### The split regex `[â€¢\-\*]\s*|^\s*\d+\.?\s*` (`re.MULTILINE`)

The source file stores the bullet character in a mojibake form, so the
character class literally contains the three characters `â`, `€`, `¢`
besides `-` and `*`. -/

/-- The character class `[â€¢\-\*]`. -/
def bulletClass (c : Char) : Bool :=
  c = 'â' || c = '€' || c = '¢' || c = '-' || c = '*'

/-- Drop leading whitespace, tracking whether the last dropped character
was a newline (needed for `^` under `re.MULTILINE` after the delimiter). -/
def dropSpacesTrack : Bool → List Char → List Char × Bool
  | lastNL, [] => ([], lastNL)
  | lastNL, c :: rest =>
    if isPySpace c then dropSpacesTrack (c = '\n') rest else (c :: rest, lastNL)

/-- Second alternative `^\s*\d+\.?\s*`: only at a line start.  No
backtracking is needed: whitespace, digits, and the dot never overlap. -/
def matchDelimNum (atLineStart : Bool) (s : List Char) : Option (List Char × Bool) :=
  if atLineStart then
    let s1 := s.dropWhile isPySpace
    match s1 with
    | c :: _ =>
      if c.isDigit then
        let s2 := s1.dropWhile Char.isDigit
        let s3 := match s2 with
          | '.' :: r => r
          | _ => s2
        some (dropSpacesTrack false s3)
      else none
    | [] => none
  else none

/-- The delimiter pattern of `re.split`: first alternative `[â€¢\-\*]\s*`,
then `^\s*\d+\.?\s*`.  Returns the rest after the delimiter and whether
the last consumed character was a newline. -/
def matchDelim (atLineStart : Bool) (s : List Char) : Option (List Char × Bool) :=
  match s with
  | c :: rest =>
    if bulletClass c then some (dropSpacesTrack false rest)
    else matchDelimNum atLineStart (c :: rest)
  | [] => matchDelimNum atLineStart []

/-- `re.split` with the delimiter above: scan for non-overlapping
delimiter matches and cut the string at them.  The accumulator holds the
current piece reversed; every step consumes at least one character. -/
def pySplitAux : Nat → Bool → List Char → List Char → List (List Char)
  | 0, _, acc, rest => [acc.reverse ++ rest]
  | _ + 1, _, acc, [] => [acc.reverse]
  | fuel + 1, atLS, acc, c :: rest =>
    match matchDelim atLS (c :: rest) with
    | some (r, nl) => acc.reverse :: pySplitAux fuel nl [] r
    | none => pySplitAux fuel (c = '\n') (c :: acc) rest

/-- `re.split(r'[â€¢\-\*]\s*|^\s*\d+\.?\s*', s, flags=re.MULTILINE)`. -/
def pySplitBullets (s : List Char) : List (List Char) :=
  pySplitAux (s.length + 1) true [] s

/-! ### Data model (`@dataclass` definitions of `pm_resume_agent.py`) -/

/-- `Experience`: a work experience entry. -/
structure Experience where
  title : String
  company : String
  duration : String
  achievements : List String
  skills : List String
  relevance_score : ℚ := 0
deriving DecidableEq

/-- `Education`: an education entry (`details` defaults to `None`). -/
structure Education where
  degree : String
  institution : String
  year : String
  details : Option (List String) := none
deriving DecidableEq

/-- `UserProfile`: the user's complete profile information. -/
structure UserProfile where
  name : String
  email : String
  phone : String
  linkedin : String
  location : String
  summary : String
  experiences : List Experience
  education : List Education
  skills : List String
  certifications : List String
  languages : List String
deriving DecidableEq

/-! ### `JobDescriptionAnalyzer` -/

/-- The static `PM_KEYWORDS` table, in its Python iteration order. -/
def PM_KEYWORDS : List (String × List String) :=
  [("core_skills",
    ["product management", "product strategy", "roadmap", "user stories",
     "agile", "scrum", "kanban", "sprint planning", "backlog management",
     "stakeholder management", "cross-functional", "data analysis",
     "market research", "competitive analysis", "user research", "ux/ui",
     "metrics", "kpis", "analytics", "a/b testing", "experimentation"]),
   ("technical_skills",
    ["sql", "python", "jira", "confluence", "figma", "sketch",
     "google analytics", "mixpanel", "amplitude", "tableau",
     "api", "sdk", "aws", "azure", "gcp", "docker", "kubernetes"]),
   ("soft_skills",
    ["leadership", "communication", "collaboration", "problem solving",
     "critical thinking", "decision making", "negotiation",
     "presentation", "mentoring", "coaching", "influence"]),
   ("industries",
    ["saas", "fintech", "healthcare", "e-commerce", "mobile",
     "enterprise", "b2b", "b2c", "marketplace", "platform"])]

/-- The `category_weights` dict of `_calculate_keyword_scores`. -/
def category_weights : Dict String ℚ :=
  [("core_skills", 1), ("technical_skills", 0.8),
   ("soft_skills", 0.6), ("industries", 0.7)]

/-- One entry of a per-category found-keyword list: `{'keyword': …,
'count': …}`. -/
structure FoundKw where
  keyword : String
  count : Nat
deriving DecidableEq

/-- The `found_keywords` loop of `analyze`, over an arbitrary keyword
table: for each category, the keywords contained in the lowercased text
with their non-overlapping counts. -/
def found_keywords (table : List (String × List String)) (jdLower : String) :
    List (String × List FoundKw) :=
  table.map (fun cat =>
    (cat.1, cat.2.filterMap (fun kw =>
      if strIn kw jdLower then some ⟨kw, pyCount kw jdLower⟩ else none)))

/-- `_calculate_keyword_scores`: nested loop over the found keywords,
assigning `count × weight` into the scores dict (`0.5` default weight for
an unknown category). -/
def calculate_keyword_scores (weights : Dict String ℚ)
    (found : List (String × List FoundKw)) : Dict String ℚ :=
  found.foldl (fun scores cat =>
    let weight := dictGetD weights cat.1 0.5
    cat.2.foldl (fun scores kd => dictSet scores kd.keyword ((kd.count : ℚ) * weight))
      scores) []

/-- `_extract_requirements`: run the four patterns' `finditer` in order,
strip each captured section, split it at bullet/number markers, keep the
non-empty stripped items, and truncate to the first 10. -/
def extract_requirements (jd : String) : List String :=
  let matchers := [matchReqPat1, matchReqPat2, matchReqPat3, matchReqPat4]
  let sections := matchers.flatMap (fun m => reFinditer m (jd.data.length + 1) jd.data)
  let reqs := sections.flatMap (fun sec =>
    (pySplitBullets (pyStripL sec)).filterMap (fun item =>
      let t := pyStripL item
      if t.isEmpty then none else some (String.mk t)))
  reqs.take 10

/-- The company-info dict of `_extract_company_info`. -/
structure CompanyInfo where
  industry : String
  size : String
  stage : String
  culture : List String
deriving DecidableEq

/-- `_extract_company_info`: first industry keyword found (table order),
and a coarse stage classifier.  Reads the `industries` category of the
analyzer's keyword table. -/
def extract_company_infoWith (table : List (String × List String)) (jd : String) :
    CompanyInfo :=
  let jdLower := pyLower jd
  let industries := dictGetD table "industries" []
  let industry := ((industries.find? (fun i => strIn i jdLower)).getD "")
  let stage :=
    if ["startup", "early stage", "seed"].any (fun t => strIn t jdLower) then "startup"
    else if ["enterprise", "fortune", "large"].any (fun t => strIn t jdLower) then "enterprise"
    else ""
  { industry := industry, size := "", stage := stage, culture := [] }

/-- `_extract_company_info` with the static `PM_KEYWORDS` table. -/
def extract_company_info (jd : String) : CompanyInfo :=
  extract_company_infoWith PM_KEYWORDS jd

/-- `_generate_analysis_summary`. -/
def generate_analysis_summary (found : List (String × List FoundKw))
    (requirements : List String) : String :=
  let total := (found.map (fun p => p.2.length)).sum
  let topCategories := (pySortDesc (fun p => p.2.length) found).take 3
  "Found " ++ toString total ++ " relevant PM keywords. " ++
    "Top focus areas: " ++ String.intercalate ", " (topCategories.map (·.1)) ++ ". " ++
    "Identified " ++ toString requirements.length ++ " key requirements."

/-- The analysis dict returned by `JobDescriptionAnalyzer.analyze`. -/
structure Analysis where
  keywords : List (String × List FoundKw)
  keyword_scores : Dict String ℚ
  requirements : List String
  company_info : CompanyInfo
  analysis_summary : String
deriving DecidableEq

/-- `JobDescriptionAnalyzer.analyze` over an arbitrary keyword table. -/
def analyzeWith (table : List (String × List String)) (jd : String) : Analysis :=
  let jdLower := pyLower jd
  let found := found_keywords table jdLower
  let requirements := extract_requirements jd
  let company_info := extract_company_infoWith table jd
  let keyword_scores := calculate_keyword_scores category_weights found
  { keywords := found
    keyword_scores := keyword_scores
    requirements := requirements
    company_info := company_info
    analysis_summary := generate_analysis_summary found requirements }

/-- `JobDescriptionAnalyzer.analyze` with the static `PM_KEYWORDS` table. -/
def analyze (jd : String) : Analysis :=
  analyzeWith PM_KEYWORDS jd

/-- `analyze` as called on a possibly-null argument: `None.lower()` raises
`AttributeError`, a non-null string is analyzed. -/
def analyzeOpt (jd : Option String) : Except String Analysis :=
  match jd with
  | none => .error "AttributeError"
  | some s => .ok (analyze s)

/-! ### `ResumeTailor` -/

/-- The lowercased concatenation
`f"{title} {company} {' '.join(achievements)} {' '.join(skills)}".lower()`
built in `_score_experiences`. -/
def exp_text (exp : Experience) : String :=
  pyLower (exp.title ++ " " ++ exp.company ++ " " ++
    String.intercalate " " exp.achievements ++ " " ++
    String.intercalate " " exp.skills)

/-- The flat `+5.0` bonus for PM titles in `_score_experiences`. -/
def pm_title_bonus (exp : Experience) : ℚ :=
  if ["product manager", "product owner", "pm"].any
      (fun t => strIn t (pyLower exp.title)) then 5 else 0

/-- The relevance score computed for one experience in
`_score_experiences`: sum of the scores of all keywords contained in the
experience text, plus the PM-title bonus. -/
def experience_score (keyword_scores : Dict String ℚ) (exp : Experience) : ℚ :=
  keyword_scores.foldl
    (fun score p => if strIn p.1 (exp_text exp) then score + p.2 else score) 0
  + pm_title_bonus exp

/-- `_score_experiences`: write the computed score into each experience
(in-place mutation, modelled by returning the updated list in input
order as the second component) and return the list sorted descending by
relevance score. -/
def score_experiences (experiences : List Experience)
    (keyword_scores : Dict String ℚ) : List Experience × List Experience :=
  let scored := experiences.map
    (fun exp => { exp with relevance_score := experience_score keyword_scores exp })
  (pySortDesc (fun e => e.relevance_score) scored, scored)

/-- `_optimize_summary`: append the top keywords and detected themes to
the base summary.  The `focus_areas` parameter is accepted and unused,
exactly as in the source. -/
def optimize_summary (base_summary : String) (keyword_scores : Dict String ℚ)
    (focus_areas : Option (List String)) : String :=
  let top_keywords := (pySortDesc (fun p => p.2) keyword_scores).take 8
  let themes : List String :=
    (if top_keywords.any (fun kw => strIn "agile" kw.1 || strIn "scrum" kw.1)
     then ["agile methodologies"] else []) ++
    (if top_keywords.any (fun kw => strIn "data" kw.1 || strIn "analytics" kw.1)
     then ["data-driven decision making"] else []) ++
    (if top_keywords.any (fun kw => strIn "stakeholder" kw.1 || strIn "cross-functional" kw.1)
     then ["stakeholder management"] else [])
  let keyword_phrase := String.intercalate ", " ((top_keywords.take 5).map (·.1))
  let optimized := base_summary ++ " Specialized in " ++ keyword_phrase
  let optimized :=
    if themes.isEmpty then optimized
    else optimized ++ " with proven expertise in " ++ String.intercalate ", " themes
  optimized ++ "."

/-- The per-skill score of `_prioritize_skills`: dict lookup of the
lowercased skill with default `0`, plus a `+2.0` bonus when the lowercased
skill is an exact key of the score map. -/
def skill_score (keyword_scores : Dict String ℚ) (skill : String) : ℚ :=
  let score := dictGetD keyword_scores (pyLower skill) 0
  if dictContains keyword_scores (pyLower skill) then score + 2 else score

/-- `_prioritize_skills`: score every skill, stable-sort descending by
score, return the skill strings. -/
def prioritize_skills (skills : List String) (keyword_scores : Dict String ℚ) :
    List String :=
  let skill_scores := skills.map (fun skill => (skill, skill_score keyword_scores skill))
  (pySortDesc (fun x => x.2) skill_scores).map (·.1)

/-- Python `max(xs, key=k)` for a nonempty list: the first element with
the maximal key. -/
def pyMaxBy (key : α → Nat) : List α → Option α
  | [] => none
  | x :: xs => some (xs.foldl (fun best y => if key y > key best then y else best) x)

/-- `_generate_optimization_notes`. -/
def generate_optimization_notes (jd_analysis : Analysis) : List String :=
  let total := (jd_analysis.keywords.map (fun p => p.2.length)).sum
  let top_category :=
    ((pyMaxBy (fun p => p.2.length) jd_analysis.keywords).map (·.1)).getD ""
  ["Optimized for " ++ toString total ++ " relevant PM keywords from job description",
   "Emphasized " ++ pyReplaceUnderscore top_category ++ " based on job requirements",
   "Reordered experiences by relevance score",
   "Prioritized skills matching job description"]

/-- The `personal_info` sub-dict of the tailored resume. -/
structure PersonalInfo where
  name : String
  email : String
  phone : String
  linkedin : String
  location : String
deriving DecidableEq

/-- The dict returned by `ResumeTailor.tailor_resume`. -/
structure TailoredResume where
  personal_info : PersonalInfo
  summary : String
  experiences : List Experience
  skills : List String
  education : List Education
  certifications : List String
  job_analysis : Analysis
  optimization_notes : List String
deriving DecidableEq

/-- `ResumeTailor.tailor_resume`: analyze the job description, score and
rank experiences, optimize the summary, prioritize skills, and assemble
the result (top 5 experiences, top 15 skills).  The second component is
the user profile as it stands after the call (the in-place
`relevance_score` mutation made visible). -/
def tailor_resume (profile : UserProfile) (job_description : String)
    (focus_areas : Option (List String)) : TailoredResume × UserProfile :=
  let jd_analysis := analyze job_description
  let scored := score_experiences profile.experiences jd_analysis.keyword_scores
  let tailored_summary := optimize_summary profile.summary jd_analysis.keyword_scores focus_areas
  let prioritized_skills := prioritize_skills profile.skills jd_analysis.keyword_scores
  ({ personal_info :=
      { name := profile.name, email := profile.email, phone := profile.phone,
        linkedin := profile.linkedin, location := profile.location }
     summary := tailored_summary
     experiences := scored.1.take 5
     skills := prioritized_skills.take 15
     education := profile.education
     certifications := profile.certifications
     job_analysis := jd_analysis
     optimization_notes := generate_optimization_notes jd_analysis },
   { profile with experiences := scored.2 })

/-! ### Auxiliary definitions for the verification -/

/-- Folding Python dict assignments over a list of key-value writes. -/
def foldInsert [DecidableEq α] (m : Dict α β) (entries : List (α × β)) : Dict α β :=
  entries.foldl (fun s e => dictSet s e.1 e.2) m

/-- The sequence of dict writes performed by `_calculate_keyword_scores`
in iteration order: one `(phrase, count × weight)` pair per found
(category, phrase). -/
def flatEntries (weights : Dict String ℚ) (found : List (String × List FoundKw)) :
    List (String × ℚ) :=
  found.flatMap (fun cat =>
    cat.2.map (fun kd => (kd.keyword, (kd.count : ℚ) * dictGetD weights cat.1 0.5)))

/-- The specification of `KeywordScoreMap` from the claim: each phrase
found in the lowercased job text maps to its non-overlapping occurrence
count times the weight of the *last* category (in iteration order) whose
list holds the phrase; phrases not found (or not in the table) are
absent. -/
def keywordScoreSpec (jd k : String) : Option ℚ :=
  if strIn k (pyLower jd) then
    ((PM_KEYWORDS.filter (fun cat => cat.2.any (fun kw => kw = k))).getLast?).map
      (fun cat => (pyCount k (pyLower jd) : ℚ) * dictGetD category_weights cat.1 0.5)
  else none

/-- Resetting the transient relevance-score mutation: every experience's
score back to the dataclass default `0.0`. -/
def resetScores (p : UserProfile) : UserProfile :=
  { p with experiences := p.experiences.map (fun e => { e with relevance_score := 0 }) }

/-- A profile experience whose title carries no PM-title substring. -/
def expEngineer : Experience :=
  { title := "Software Engineer", company := "Acme", duration := "2019-2020",
    achievements := [], skills := [], relevance_score := 0 }

/-- A profile experience whose title contains "product manager". -/
def expPM : Experience :=
  { title := "Product Manager", company := "Beta", duration := "2020-2022",
    achievements := [], skills := [], relevance_score := 0 }

/-! ### Lemmas about the dict model -/

theorem find?_map_overwrite [DecidableEq α] (k : α) (v : β) :
    ∀ m : Dict α β, m.any (fun p => p.1 = k) = true →
      (m.map (fun p => if p.1 = k then (k, v) else p)).find? (fun p => p.1 = k) = some (k, v)
  | [], h => by simp at h
  | p :: m, h => by
    by_cases hp : p.1 = k
    · simp [List.find?, hp]
    · have hm : m.any (fun p => p.1 = k) = true := by
        simp only [List.any_cons, Bool.or_eq_true, decide_eq_true_eq] at h
        rcases h with h | h
        · exact absurd h hp
        · exact h
      simpa [List.find?, hp] using find?_map_overwrite k v m hm

theorem dictGet?_dictSet_self [DecidableEq α] (m : Dict α β) (k : α) (v : β) :
    dictGet? (dictSet m k v) k = some v := by
  unfold dictSet dictContains
  by_cases h : m.any (fun p => p.1 = k) = true
  · simp [dictGet?, h, find?_map_overwrite k v m h]
  · simp only [h, if_false, dictGet?, List.find?_append]
    have hnone : m.find? (fun p => p.1 = k) = none := by
      rw [List.find?_eq_none]
      intro p hp
      simp only [decide_eq_true_eq]
      intro hpk
      exact h (List.any_eq_true.mpr ⟨p, hp, by simp [hpk]⟩)
    simp [hnone, List.find?]

theorem find?_map_overwrite_ne [DecidableEq α] (k k' : α) (v : β) (h : k' ≠ k) :
    ∀ m : Dict α β,
      (m.map (fun p => if p.1 = k then (k, v) else p)).find? (fun p => p.1 = k') =
        m.find? (fun p => p.1 = k')
  | [] => rfl
  | p :: m => by
    rw [List.map_cons]
    by_cases hp : p.1 = k
    · have h2 : ¬(p.1 = k') := fun hk => h ((hp ▸ hk : k = k')).symm
      rw [if_pos hp, List.find?_cons_of_neg _ (by simpa using fun hk => h hk.symm),
        List.find?_cons_of_neg _ (by simpa using h2)]
      exact find?_map_overwrite_ne k k' v h m
    · rw [if_neg hp]
      by_cases hp' : p.1 = k'
      · rw [List.find?_cons_of_pos _ (by simpa using hp'),
          List.find?_cons_of_pos _ (by simpa using hp')]
      · rw [List.find?_cons_of_neg _ (by simpa using hp'),
          List.find?_cons_of_neg _ (by simpa using hp')]
        exact find?_map_overwrite_ne k k' v h m

theorem dictGet?_dictSet_ne [DecidableEq α] (m : Dict α β) (k k' : α) (v : β)
    (h : k' ≠ k) : dictGet? (dictSet m k v) k' = dictGet? m k' := by
  unfold dictSet dictContains
  by_cases hc : m.any (fun p => p.1 = k) = true
  · simp [dictGet?, hc, find?_map_overwrite_ne k k' v h m]
  · simp only [hc, if_false, dictGet?, List.find?_append]
    have hkk : ¬(k = k') := fun hk => h hk.symm
    have h1 : ([(k, v)].find? (fun p => p.1 = k')) = none := by
      simp [List.find?, hkk]
    cases hm : m.find? (fun p => p.1 = k') with
    | none => simp [hm, h1]
    | some p => simp [hm]

theorem mem_dictSet [DecidableEq α] {m : Dict α β} {k : α} {v : β} {p : α × β}
    (h : p ∈ dictSet m k v) : p ∈ m ∨ p = (k, v) := by
  unfold dictSet at h
  split at h
  · rcases List.mem_map.mp h with ⟨q, hq, hqp⟩
    by_cases hqk : q.1 = k
    · right
      simpa [hqk] using hqp.symm
    · left
      have hqp2 : q = p := by simpa [if_neg hqk] using hqp
      exact hqp2 ▸ hq
  · rcases List.mem_append.mp h with h | h
    · exact Or.inl h
    · right
      simpa using h

theorem mem_foldInsert [DecidableEq α] {entries : List (α × β)} :
    ∀ {m : Dict α β} {p : α × β}, p ∈ foldInsert m entries → p ∈ m ∨ p ∈ entries := by
  induction entries with
  | nil => exact fun h => Or.inl h
  | cons e es ih =>
    intro m p h
    rcases ih h with h | h
    · rcases mem_dictSet h with h | h
      · exact Or.inl h
      · exact Or.inr (by simp [h])
    · exact Or.inr (List.mem_cons_of_mem e h)

theorem getLast?_cons_or (a : α) (l : List α) :
    (a :: l).getLast? = l.getLast?.or (some a) := by
  cases l with
  | nil => rfl
  | cons b t =>
    rw [List.getLast?_cons_cons]
    cases h : (b :: t).getLast? with
    | none => simp [List.getLast?] at h
    | some c => rfl

theorem getLast?_append_or (l₁ l₂ : List α) :
    (l₁ ++ l₂).getLast? = l₂.getLast?.or l₁.getLast? := by
  cases h : l₂.getLast? with
  | none =>
    have : l₂ = [] := by
      cases l₂ with
      | nil => rfl
      | cons b t => simp [getLast?_cons_or] at h
    simp [this, Option.or]
  | some c =>
    have hne : l₂ ≠ [] := by
      intro he
      rw [he] at h
      simp at h
    rw [List.getLast?_append_of_ne_nil _ hne, h]
    rfl

/-- Looking up a key after a sequence of dict writes: the last write to
that key wins; with no write the original dict answers. -/
theorem dictGet?_foldInsert [DecidableEq α] (k : α) :
    ∀ (entries : List (α × β)) (m : Dict α β),
      dictGet? (foldInsert m entries) k =
        ((entries.filter (fun e => e.1 = k)).getLast?.map (·.2)).or (dictGet? m k)
  | [], m => by simp [foldInsert, Option.or]
  | e :: es, m => by
    have step : foldInsert m (e :: es) = foldInsert (dictSet m e.1 e.2) es := rfl
    rw [step, dictGet?_foldInsert k es (dictSet m e.1 e.2)]
    by_cases he : e.1 = k
    · rw [List.filter_cons_of_pos (by simp [he]), getLast?_cons_or]
      rw [he, dictGet?_dictSet_self]
      cases hlast : (es.filter (fun e => e.1 = k)).getLast? with
      | none => simp [Option.or]
      | some q => simp [Option.or]
    · rw [List.filter_cons_of_neg (by simp [he]), dictGet?_dictSet_ne m e.1 k e.2 (fun hk => he hk.symm)]

/-! ### Characterizing `calculate_keyword_scores` -/

theorem foldl_scores_eq_foldInsert (weights : Dict String ℚ) :
    ∀ (found : List (String × List FoundKw)) (m : Dict String ℚ),
      found.foldl (fun scores cat =>
        cat.2.foldl (fun scores kd =>
          dictSet scores kd.keyword ((kd.count : ℚ) * dictGetD weights cat.1 0.5)) scores) m
      = foldInsert m (flatEntries weights found)
  | [], _ => rfl
  | cat :: found, m => by
    rw [List.foldl_cons, foldl_scores_eq_foldInsert weights found]
    unfold flatEntries foldInsert
    rw [List.flatMap_cons, List.foldl_append, List.foldl_map]

theorem calculate_eq_foldInsert (weights : Dict String ℚ)
    (found : List (String × List FoundKw)) :
    calculate_keyword_scores weights found = foldInsert [] (flatEntries weights found) := by
  unfold calculate_keyword_scores
  exact foldl_scores_eq_foldInsert weights found []

theorem option_or_none (o : Option α) : o.or none = o := by
  cases o <;> rfl

theorem option_map_or (f : α → β) (o o' : Option α) :
    (o.or o').map f = (o.map f).or (o'.map f) := by
  cases o <;> rfl

theorem filter_inner_entries (jdL k : String) (W : ℚ) :
    ∀ kws : List String,
      (((kws.filterMap (fun kw =>
          if strIn kw jdL then some (⟨kw, pyCount kw jdL⟩ : FoundKw) else none)).map
            (fun kd => (kd.keyword, (kd.count : ℚ) * W))).filter (fun e => e.1 = k))
      = if strIn k jdL then
          (kws.filter (fun kw => kw = k)).map (fun _ => (k, (pyCount k jdL : ℚ) * W))
        else []
  | [] => by
    by_cases h : strIn k jdL = true
    · simp [h]
    · simp [h]
  | kw :: kws => by
    have ih := filter_inner_entries jdL k W kws
    by_cases hin : strIn kw jdL = true
    · have hstep : ((kw :: kws).filterMap (fun kw =>
          if strIn kw jdL then some (⟨kw, pyCount kw jdL⟩ : FoundKw) else none))
          = (⟨kw, pyCount kw jdL⟩ : FoundKw) :: (kws.filterMap (fun kw =>
              if strIn kw jdL then some (⟨kw, pyCount kw jdL⟩ : FoundKw) else none)) := by
        rw [List.filterMap_cons, if_pos hin]
      rw [hstep, List.map_cons]
      by_cases hk : kw = k
      · have hsk : strIn k jdL = true := by rw [← hk]; exact hin
        rw [List.filter_cons_of_pos (by simp [hk]), ih]
        simp only [if_pos hsk]
        rw [List.filter_cons_of_pos (by simp [hk]), List.map_cons, hk]
      · rw [List.filter_cons_of_neg (by simp [hk]), ih]
        by_cases hsk : strIn k jdL = true
        · simp only [if_pos hsk]
          rw [List.filter_cons_of_neg (by simp [hk])]
        · simp only [if_neg hsk]
    · have hstep : ((kw :: kws).filterMap (fun kw =>
          if strIn kw jdL then some (⟨kw, pyCount kw jdL⟩ : FoundKw) else none))
          = kws.filterMap (fun kw =>
              if strIn kw jdL then some (⟨kw, pyCount kw jdL⟩ : FoundKw) else none) := by
        rw [List.filterMap_cons, if_neg hin]
      rw [hstep, ih]
      by_cases hk : kw = k
      · have hsk : ¬(strIn k jdL = true) := by rw [← hk]; exact hin
        simp only [if_neg hsk]
      · by_cases hsk : strIn k jdL = true
        · simp only [if_pos hsk]
          rw [List.filter_cons_of_neg (by simp [hk])]
        · simp only [if_neg hsk]

theorem getLast?_map_const (c : β) :
    ∀ l : List α, (l.map (fun _ => c)).getLast? = if l.isEmpty then none else some c
  | [] => rfl
  | a :: l => by
    rw [List.map_cons, getLast?_cons_or, getLast?_map_const c l]
    cases l <;> simp [Option.or]

/-- The scores dict built by the analyzer answers each key with the write
of the *last* category (in table iteration order) that lists the phrase,
provided the phrase occurs in the lowercased text. -/
theorem lastWrite_char (weights : Dict String ℚ) (jdL k : String) :
    ∀ table : List (String × List String),
      ((flatEntries weights (found_keywords table jdL)).filter (fun e => e.1 = k)).getLast?
      = if strIn k jdL then
          ((table.filter (fun cat => cat.2.any (fun kw => kw = k))).getLast?).map
            (fun cat => (k, (pyCount k jdL : ℚ) * dictGetD weights cat.1 0.5))
        else none
  | [] => by
    by_cases h : strIn k jdL = true
    · simp [flatEntries, found_keywords, h]
    · simp [flatEntries, found_keywords, h]
  | cat :: table => by
    have hstep : flatEntries weights (found_keywords (cat :: table) jdL)
        = ((cat.2.filterMap (fun kw =>
            if strIn kw jdL then some (⟨kw, pyCount kw jdL⟩ : FoundKw) else none)).map
              (fun kd => (kd.keyword, (kd.count : ℚ) * dictGetD weights cat.1 0.5)))
          ++ flatEntries weights (found_keywords table jdL) := by
      simp [flatEntries, found_keywords]
    rw [hstep, List.filter_append, getLast?_append_or, filter_inner_entries,
      lastWrite_char weights jdL k table]
    by_cases h : strIn k jdL = true
    · simp only [if_pos h]
      by_cases hc : (cat.2.any (fun kw => kw = k)) = true
      · have hmem : k ∈ cat.2 := by simpa using hc
        have hfil : ¬((cat.2.filter (fun kw => kw = k)).isEmpty = true) := by
          intro he
          have hk : k ∈ cat.2.filter (fun kw => decide (kw = k)) :=
            List.mem_filter.mpr ⟨hmem, by simp⟩
          rw [List.isEmpty_iff.mp he] at hk
          exact List.not_mem_nil k hk
        rw [List.filter_cons_of_pos (by simpa using hc), getLast?_map_const,
          if_neg hfil, getLast?_cons_or, option_map_or]
        rfl
      · have hfil : (cat.2.filter (fun kw => kw = k)).isEmpty = true := by
          rw [List.isEmpty_iff, List.filter_eq_nil_iff]
          intro kw hkw
          simp only [decide_eq_true_eq]
          intro hkwk
          exact hc (List.any_eq_true.mpr ⟨kw, hkw, by simpa using hkwk⟩)
        rw [List.filter_cons_of_neg (by simpa using hc), getLast?_map_const,
          if_pos hfil, option_or_none]
    · simp only [if_neg h]
      rfl

theorem category_weight_nonneg (c : String) : 0 ≤ dictGetD category_weights c 0.5 := by
  unfold dictGetD dictGet?
  cases hf : category_weights.find? (fun p => p.1 = c) with
  | none => norm_num
  | some p =>
    have hp : p ∈ category_weights := List.mem_of_find?_eq_some hf
    have hall : ∀ q ∈ category_weights, 0 ≤ q.2 := by
      intro q hq
      simp only [category_weights, List.mem_cons, List.not_mem_nil, or_false] at hq
      rcases hq with rfl | rfl | rfl | rfl <;> norm_num
    simpa using hall p hp

theorem flatEntries_value_nonneg {e : String × ℚ}
    (h : e ∈ flatEntries category_weights found) : 0 ≤ e.2 := by
  rcases List.mem_flatMap.mp h with ⟨cat, _, hmem⟩
  rcases List.mem_map.mp hmem with ⟨kd, _, hkd⟩
  rw [← hkd]
  exact mul_nonneg (Nat.cast_nonneg _) (category_weight_nonneg _)

theorem keyword_scores_value_nonneg (jd : String) :
    ∀ kv ∈ (analyze jd).keyword_scores, 0 ≤ kv.2 := by
  intro kv hkv
  have hks : (analyze jd).keyword_scores
      = calculate_keyword_scores category_weights
          (found_keywords PM_KEYWORDS (pyLower jd)) := rfl
  rw [hks, calculate_eq_foldInsert] at hkv
  rcases mem_foldInsert hkv with h | h
  · simp at h
  · exact flatEntries_value_nonneg h

/-- C1: for every job-description text, the score map produced by
`JobDescriptionAnalyzer.analyze` maps each found lowercase phrase to
(non-overlapping occurrence count in the lowercased text) × (its
category's weight); every value in the map is ≥ 0; and for a phrase
listed in more than one category the value stored is the one of the last
category in category-iteration order (last write wins, not summed) —
`keywordScoreSpec` spells this out. -/
theorem keyword_scores_correct (jd k : String) :
    dictGet? (analyze jd).keyword_scores k = keywordScoreSpec jd k ∧
    (analyze jd).keyword_scores.all (fun kv => 0 ≤ kv.2) = true := by
  constructor
  · have hks : (analyze jd).keyword_scores
        = calculate_keyword_scores category_weights
            (found_keywords PM_KEYWORDS (pyLower jd)) := rfl
    rw [hks, calculate_eq_foldInsert, dictGet?_foldInsert,
      lastWrite_char category_weights (pyLower jd) k PM_KEYWORDS]
    unfold keywordScoreSpec
    by_cases h : strIn k (pyLower jd) = true
    · simp only [if_pos h]
      have hnil : dictGet? ([] : Dict String ℚ) k = none := rfl
      rw [hnil, option_or_none, Option.map_map]
      rfl
    · simp only [if_neg h]
      rfl
  · rw [List.all_eq_true]
    intro kv hkv
    simpa using keyword_scores_value_nonneg jd kv hkv

/-! ### The descending sort: permutation, sortedness, stability -/

theorem orderedInsert_filter_key [LinearOrder β] (key : α → β) (c : β) (x : α) :
    ∀ l : List α,
      (List.orderedInsert (fun a b => key b ≤ key a) x l).filter (fun y => key y = c)
      = if key x = c then x :: l.filter (fun y => key y = c)
        else l.filter (fun y => key y = c)
  | [] => by
    by_cases h : key x = c
    · simp [List.orderedInsert, h]
    · simp [List.orderedInsert, h]
  | y :: l => by
    simp only [List.orderedInsert]
    by_cases hr : key y ≤ key x
    · rw [if_pos hr]
      by_cases h : key x = c
      · simp only [if_pos h]
        rw [List.filter_cons_of_pos (by simp [h])]
      · simp only [if_neg h]
        rw [List.filter_cons_of_neg (by simp [h])]
    · rw [if_neg hr]
      have hlt : key x < key y := lt_of_not_le hr
      by_cases hy : key y = c
      · have hx : ¬(key x = c) := by
          rw [← hy]
          exact ne_of_lt hlt
        rw [List.filter_cons_of_pos (by simp [hy]), orderedInsert_filter_key key c x l]
        simp only [if_neg hx]
        rw [List.filter_cons_of_pos (by simp [hy])]
      · rw [List.filter_cons_of_neg (by simp [hy]), orderedInsert_filter_key key c x l]
        by_cases h : key x = c
        · simp only [if_pos h]
          rw [List.filter_cons_of_neg (by simp [hy])]
        · simp only [if_neg h]
          rw [List.filter_cons_of_neg (by simp [hy])]

theorem insertionSort_filter_key [LinearOrder β] (key : α → β) (c : β) :
    ∀ l : List α,
      ((l.insertionSort (fun a b => key b ≤ key a)).filter (fun y => key y = c))
      = l.filter (fun y => key y = c)
  | [] => rfl
  | x :: l => by
    rw [List.insertionSort, orderedInsert_filter_key key c x,
      insertionSort_filter_key key c l]
    by_cases h : key x = c
    · simp only [if_pos h]
      rw [List.filter_cons_of_pos (by simp [h])]
    · simp only [if_neg h]
      rw [List.filter_cons_of_neg (by simp [h])]

/-- Stability of `sorted(xs, key=key, reverse=True)`: restricting the
output to any single key value gives exactly the input elements with
that key, in input order. -/
theorem pySortDesc_filter_key [LinearOrder β] (key : α → β) (c : β) (l : List α) :
    (pySortDesc key l).filter (fun y => key y = c) = l.filter (fun y => key y = c) :=
  insertionSort_filter_key key c l

theorem pySortDesc_sorted [LinearOrder β] (key : α → β) (l : List α) :
    (pySortDesc key l).Sorted (fun a b => key b ≤ key a) := by
  haveI : IsTotal α (fun a b => key b ≤ key a) := ⟨fun a b => le_total (key b) (key a)⟩
  haveI : IsTrans α (fun a b => key b ≤ key a) :=
    ⟨fun _ _ _ hab hbc => le_trans hbc hab⟩
  exact List.sorted_insertionSort _ l

theorem pySortDesc_perm [LinearOrder β] (key : α → β) (l : List α) :
    (pySortDesc key l).Perm l :=
  List.perm_insertionSort _ l

theorem pySortDesc_length [LinearOrder β] (key : α → β) (l : List α) :
    (pySortDesc key l).length = l.length :=
  List.length_insertionSort _ l

/-- A stable sort over all-equal keys is the identity. -/
theorem pySortDesc_of_const_key [LinearOrder β] (key : α → β) (c : β) :
    ∀ l : List α, (∀ x ∈ l, key x = c) → pySortDesc key l = l
  | [], _ => rfl
  | x :: l, h => by
    have hrec : pySortDesc key l = l :=
      pySortDesc_of_const_key key c l (fun y hy => h y (List.mem_cons_of_mem x hy))
    unfold pySortDesc at hrec ⊢
    rw [List.insertionSort, hrec]
    cases l with
    | nil => rfl
    | cons y t =>
      have hxy : key y ≤ key x := by
        rw [h x (List.mem_cons_self x _), h y (by simp)]
      rw [List.orderedInsert, if_pos hxy]

/-! ### Claims C2, C10, C5, C8, C9, C6 -/

/-- C2: experience ranking sorts descending by the computed relevance
score with a *stable* sort: the output is sorted descending, and its
restriction to any single score value lists exactly the equally-scored
experiences in their input order. -/
theorem score_experiences_stable (exps : List Experience) (ks : Dict String ℚ) (c : ℚ) :
    ((score_experiences exps ks).1.filter (fun e => e.relevance_score = c)
      = (score_experiences exps ks).2.filter (fun e => e.relevance_score = c)) ∧
    (score_experiences exps ks).1.Sorted
      (fun a b => b.relevance_score ≤ a.relevance_score) := by
  unfold score_experiences
  exact ⟨pySortDesc_filter_key (fun e : Experience => e.relevance_score) c _,
    pySortDesc_sorted (fun e : Experience => e.relevance_score) _⟩

/-- C10: before truncation, experience ranking returns a permutation of
the scored experiences (the caller's objects after mutation), and skill
prioritization returns a permutation of the input skill strings; neither
changes the length. -/
theorem rank_and_prioritize_perm (exps : List Experience) (skills : List String)
    (ks : Dict String ℚ) :
    ((score_experiences exps ks).1.Perm ((score_experiences exps ks).2)) ∧
    (score_experiences exps ks).1.length = exps.length ∧
    ((prioritize_skills skills ks).Perm skills) ∧
    (prioritize_skills skills ks).length = skills.length := by
  unfold score_experiences prioritize_skills
  refine ⟨pySortDesc_perm _ _, ?_, ?_, ?_⟩
  · rw [pySortDesc_length, List.length_map]
  · have h1 : ((pySortDesc (fun x : String × ℚ => x.2)
        (skills.map (fun skill => (skill, skill_score ks skill)))).map (·.1)).Perm
        ((skills.map (fun skill => (skill, skill_score ks skill))).map (·.1)) :=
      (pySortDesc_perm _ _).map _
    have h2 : ((skills.map (fun skill => (skill, skill_score ks skill))).map
        (fun x : String × ℚ => x.1)) = skills := by
      rw [List.map_map]
      exact List.map_id skills
    rw [h2] at h1
    exact h1
  · rw [List.length_map, pySortDesc_length, List.length_map]

/-- C5: the tailored resume holds exactly `min(5, #experiences)`
experiences and `min(15, #skills)` skills. -/
theorem tailored_counts (p : UserProfile) (jd : String) (fa : Option (List String)) :
    (tailor_resume p jd fa).1.experiences.length = min 5 p.experiences.length ∧
    (tailor_resume p jd fa).1.skills.length = min 15 p.skills.length := by
  unfold tailor_resume score_experiences prioritize_skills
  constructor
  · rw [List.length_take, pySortDesc_length, List.length_map]
  · rw [List.length_take, List.length_map, pySortDesc_length, List.length_map]

/-- C8: the `focus_areas` parameter has no effect: any two values give
the identical tailored resume (and identical mutated profile). -/
theorem focus_areas_no_effect (p : UserProfile) (jd : String)
    (fa fa' : Option (List String)) :
    tailor_resume p jd fa = tailor_resume p jd fa' := rfl

/-- C9: tailoring leaves every field of the caller's profile unchanged —
identity fields, summary, education, skills, certifications, languages —
except that each experience's `relevance_score` is overwritten with the
newly computed score (order and all other experience fields preserved). -/
theorem tailor_mutates_only_scores (p : UserProfile) (jd : String)
    (fa : Option (List String)) :
    ((tailor_resume p jd fa).2.name = p.name) ∧
    ((tailor_resume p jd fa).2.email = p.email) ∧
    ((tailor_resume p jd fa).2.phone = p.phone) ∧
    ((tailor_resume p jd fa).2.linkedin = p.linkedin) ∧
    ((tailor_resume p jd fa).2.location = p.location) ∧
    ((tailor_resume p jd fa).2.summary = p.summary) ∧
    ((tailor_resume p jd fa).2.education = p.education) ∧
    ((tailor_resume p jd fa).2.skills = p.skills) ∧
    ((tailor_resume p jd fa).2.certifications = p.certifications) ∧
    ((tailor_resume p jd fa).2.languages = p.languages) ∧
    ((tailor_resume p jd fa).2.experiences = p.experiences.map (fun e =>
      { e with relevance_score := experience_score (analyze jd).keyword_scores e })) :=
  ⟨rfl, rfl, rfl, rfl, rfl, rfl, rfl, rfl, rfl, rfl, rfl⟩

/-- C6: tailoring twice with the same profile and job text, with the
relevance-score mutation reset between the calls, yields identical
tailored-resume content. -/
theorem tailor_idempotent (p : UserProfile) (jd : String) (fa : Option (List String)) :
    (tailor_resume (resetScores (tailor_resume p jd fa).2) jd fa).1
      = (tailor_resume p jd fa).1 := by
  have hreset : resetScores (tailor_resume p jd fa).2
      = { p with experiences :=
            List.map (fun e => { e with relevance_score := 0 }) p.experiences } := by
    simp [resetScores, tailor_resume, score_experiences, List.map_map]
  rw [hreset]
  simp only [tailor_resume, score_experiences, List.map_map]
  rfl

/-! ### Claims C3, C4, C7 -/

theorem pySortDesc_pair [LinearOrder β] (key : α → β) (a b : α) :
    pySortDesc key [a, b] = if key b ≤ key a then [a, b] else [b, a] := rfl

/-- C3 counterexample: with an *empty* keyword table, scores are not all
zero and ranking does not return the input order — an experience titled
"Product Manager" still gets the flat `+5.0` title bonus and is moved to
the front. -/
theorem empty_table_not_all_zero :
    ((score_experiences [expEngineer, expPM]
        (analyzeWith [] "any job").keyword_scores).1.map (fun e => e.title)
      = ["Product Manager", "Software Engineer"]) ∧
    ((score_experiences [expEngineer, expPM]
        (analyzeWith [] "any job").keyword_scores).2.map (fun e => e.relevance_score)
      = [0, 5]) := by
  have hks : (analyzeWith [] "any job").keyword_scores = [] := rfl
  rw [hks]
  constructor
  · have hpair : (score_experiences [expEngineer, expPM] []).1
        = pySortDesc (fun e : Experience => e.relevance_score)
            [{ expEngineer with relevance_score := experience_score [] expEngineer },
             { expPM with relevance_score := experience_score [] expPM }] := rfl
    rw [hpair, pySortDesc_pair]
    have hc : ¬(({ expPM with relevance_score := experience_score [] expPM} :
            Experience).relevance_score
          ≤ ({ expEngineer with relevance_score := experience_score [] expEngineer} :
            Experience).relevance_score) := by
      show ¬((0 : ℚ) + 5 ≤ 0 + 0)
      norm_num
    rw [if_neg hc]
    rfl
  · have h2 : (score_experiences [expEngineer, expPM] []).2.map
        (fun e => e.relevance_score) = [0 + 0, 0 + 5] := rfl
    rw [h2]
    norm_num

/-- C3 (amended): with an empty keyword table (under any weights) the
keyword-score map is empty and no exception occurs (all functions are
total); each experience's computed score then equals the PM-title bonus —
`5.0` when the lowercased title contains "product manager",
"product owner" or "pm" as a substring, else `0.0`; and whenever no
experience title carries the bonus, ranking returns the experiences in
their original input order. -/
theorem score_experiences_empty_table (exps : List Experience) (jd : String)
    (weights : Dict String ℚ) :
    ((analyzeWith [] jd).keyword_scores = []) ∧
    (calculate_keyword_scores weights (found_keywords [] (pyLower jd)) = []) ∧
    ((score_experiences exps (analyzeWith [] jd).keyword_scores).2
      = exps.map (fun e => { e with relevance_score := pm_title_bonus e })) ∧
    ((∀ e ∈ exps, pm_title_bonus e = 0) →
      (score_experiences exps (analyzeWith [] jd).keyword_scores).1
        = (score_experiences exps (analyzeWith [] jd).keyword_scores).2) := by
  have hks : (analyzeWith [] jd).keyword_scores = [] := rfl
  refine ⟨rfl, rfl, ?_, ?_⟩
  · rw [hks]
    show exps.map (fun e : Experience =>
        ({ e with relevance_score := experience_score [] e } : Experience))
      = exps.map (fun e : Experience =>
        ({ e with relevance_score := pm_title_bonus e } : Experience))
    have hzero : ∀ e : Experience, experience_score [] e = pm_title_bonus e := by
      intro e
      show (0 : ℚ) + pm_title_bonus e = pm_title_bonus e
      exact zero_add _
    simp only [hzero]
  · intro h
    rw [hks]
    show pySortDesc (fun e : Experience => e.relevance_score)
        (exps.map (fun e => { e with relevance_score := experience_score [] e }))
      = exps.map (fun e => { e with relevance_score := experience_score [] e })
    apply pySortDesc_of_const_key (fun e : Experience => e.relevance_score) 0
    intro x hx
    rcases List.mem_map.mp hx with ⟨e, he, rfl⟩
    show experience_score [] e = 0
    calc experience_score [] e = 0 + pm_title_bonus e := rfl
      _ = 0 + 0 := by rw [h e he]
      _ = 0 := by norm_num

/-- Witness for `score_experiences_empty_table`: for a profile with one
engineer experience and an empty table, ranking returns the input
order. -/
theorem score_experiences_empty_table_witness :
    (score_experiences [expEngineer] (analyzeWith [] "x").keyword_scores).1
      = (score_experiences [expEngineer] (analyzeWith [] "x").keyword_scores).2 :=
  (score_experiences_empty_table [expEngineer] "x" []).2.2.2 (by decide)

/-- C4 counterexample: a null (`None`) job description makes `analyze`
raise `AttributeError` (from `None.lower()`) rather than return an
analysis with empty fields. -/
theorem analyze_null_raises : analyzeOpt none = Except.error "AttributeError" := rfl

/-- C4 (amended): `analyze` returns normally on every non-null input; an
*empty* job description yields an analysis with zero keyword entries in
every category, an empty score map, empty requirements, empty company
info, and a summary reporting zero keywords found. -/
theorem analyze_empty_all_empty :
    (∀ s : String, analyzeOpt (some s) = Except.ok (analyze s)) ∧
    ((analyze "").keywords = PM_KEYWORDS.map (fun cat => (cat.1, []))) ∧
    ((analyze "").keyword_scores = []) ∧
    ((analyze "").requirements = []) ∧
    ((analyze "").company_info = ⟨"", "", "", []⟩) ∧
    ((analyze "").analysis_summary
      = "Found 0 relevant PM keywords. Top focus areas: core_skills, technical_skills, soft_skills. Identified 0 key requirements.") :=
  ⟨fun _ => rfl, rfl, rfl, rfl, rfl, rfl⟩

/-- C7: a skill's score is its lowercase dict lookup (default 0) *plus* a
`+2.0` bonus when the lowercased skill is an exact key of the map; in
particular the skill "SQL", whose lowercase form is a keyword found in
the job text, receives base + 2.0 and is ranked above "PostgreSQL", which
matches "sql" only as a substring (and therefore gets no base score);
with equal base scores the exact-match bonus alone decides the order. -/
theorem skill_prioritization_correct :
    (∀ (ks : Dict String ℚ) (skill : String),
      skill_score ks skill = dictGetD ks (pyLower skill) 0 +
        (if dictContains ks (pyLower skill) then (2 : ℚ) else 0)) ∧
    (prioritize_skills ["PostgreSQL", "SQL"] (analyze "we use sql daily").keyword_scores
      = ["SQL", "PostgreSQL"]) ∧
    (skill_score (analyze "we use sql daily").keyword_scores "SQL" = 0.8 + 2) ∧
    (prioritize_skills ["PostgreSQL", "SQL"] [("sql", 0)] = ["SQL", "PostgreSQL"]) := by
  refine ⟨?_, ?_, ?_, ?_⟩
  · intro ks skill
    unfold skill_score
    by_cases h : dictContains ks (pyLower skill) = true
    · simp [h]
    · simp [h]
  · have hpair : prioritize_skills ["PostgreSQL", "SQL"]
          (analyze "we use sql daily").keyword_scores
        = (pySortDesc (fun x : String × ℚ => x.2)
            [("PostgreSQL", (0 : ℚ)),
             ("SQL", ((1 : ℕ) : ℚ) * 0.8 + 2)]).map (·.1) := rfl
    rw [hpair, pySortDesc_pair]
    have hc : ¬((("SQL", ((1 : ℕ) : ℚ) * 0.8 + 2) : String × ℚ).2
        ≤ (("PostgreSQL", (0 : ℚ)) : String × ℚ).2) := by
      show ¬(((1 : ℕ) : ℚ) * 0.8 + 2 ≤ 0)
      norm_num
    rw [if_neg hc]
    rfl
  · show ((1 : ℕ) : ℚ) * 0.8 + 2 = 0.8 + 2
    norm_num
  · have hpair : prioritize_skills ["PostgreSQL", "SQL"] [("sql", 0)]
        = (pySortDesc (fun x : String × ℚ => x.2)
            [("PostgreSQL", (0 : ℚ)), ("SQL", (0 : ℚ) + 2)]).map (·.1) := rfl
    rw [hpair, pySortDesc_pair]
    have hc : ¬((("SQL", (0 : ℚ) + 2) : String × ℚ).2
        ≤ (("PostgreSQL", (0 : ℚ)) : String × ℚ).2) := by
      show ¬((0 : ℚ) + 2 ≤ 0)
      norm_num
    rw [if_neg hc]
    rfl

end PMAgent
